import Mathlib

/-!
# Verification of the rune `GlobWatcher` component

Shallow embedding of `src/plugins/GlobWatcher.ts` (and the second variant of
the same class found in the repository, called "variant B" below, from the
unnamed source file whose `getFiles` keys the HMR pair on the entry name and
takes a configurable `developmentURL`).

External capabilities (node:path posix functions, the `glob-parent` package,
`fast-glob`'s `globSync`) are modelled as executable Lean functions over
strings; `globSync` is abstracted as an oracle `fs : String → List String`
giving the files matched by a pattern, and `process.env.NODE_ENV` as an
`Option String`.
-/

namespace Rune

/-! ## Model of node:path (posix) and glob-parent -/

/-- Split a character list at every occurrence of the separator, like
JavaScript `String.prototype.split` with a single-character separator. -/
def splitOnChar (c : Char) : List Char → List (List Char)
  | [] => [[]]
  | x :: xs =>
    let r := splitOnChar c xs
    if x = c then [] :: r
    else
      match r with
      | [] => [[x]]
      | y :: ys => (x :: y) :: ys

/-- Path segments of a string: split on `'/'`. -/
def segsOf (s : String) : List String :=
  (splitOnChar '/' s.data).map (fun l => ⟨l⟩)

/-- Join a list of strings with a separator (JavaScript `Array.prototype.join`). -/
def joinSep (sep : String) : List String → String
  | [] => ""
  | [x] => x
  | x :: xs => x ++ sep ++ joinSep sep xs

/-- Resolve `"."`, `".."` and empty segments, accumulator-style; models the
segment processing done by `path.posix.normalize` and `path.posix.relative`. -/
def normSegs : List String → List String → List String
  | [], acc => acc.reverse
  | s :: rest, acc =>
    if s = "" ∨ s = "." then normSegs rest acc
    else if s = ".." then
      match acc with
      | [] => normSegs rest [".."]
      | a :: tl => if a = ".." then normSegs rest (".." :: a :: tl) else normSegs rest tl
    else normSegs rest (s :: acc)

/-- Model of `path.posix.normalize` for the inputs occurring in this
development: resolves `"."`/`".."`/empty segments, so e.g.
`pathNormalize "./src" = "src"`. -/
def pathNormalize (p : String) : String :=
  let abs : Bool := match p.data with
    | '/' :: _ => true
    | _ => false
  let core := joinSep "/" (normSegs (segsOf p) [])
  if abs then "/" ++ core
  else if core = "" then "." else core

/-- Relative path between two segment lists (common-prefix removal, then one
`".."` per extra source segment). -/
def relSegs : List String → List String → List String
  | [], t => t
  | f, [] => f.map (fun _ => "..")
  | a :: as, b :: bs =>
    if a = b then relSegs as bs
    else (List.replicate (as.length + 1) "..") ++ b :: bs

/-- Model of `path.posix.relative from to` for two paths interpreted against
the same working directory. -/
def pathRelative (src dst : String) : String :=
  joinSep "/" (relSegs (normSegs (segsOf src) []) (normSegs (segsOf dst) []))

/-- Model of `path.posix.basename`: the last `'/'`-separated segment. -/
def pathBasename (p : String) : String :=
  match (segsOf p).getLast? with
  | some s => s
  | none => ""

/-- Model of `path.posix.extname`: the suffix of the basename from its last
dot, unless that dot is the leading character. -/
def extname (p : String) : String :=
  let b := pathBasename p
  let parts := (splitOnChar '.' b.data).map (fun l => (⟨l⟩ : String))
  match parts with
  | [] => ""
  | [_] => ""
  | ["", _] => ""
  | _ => "." ++ (parts.getLast?.getD "")

/-- Remove the first occurrence of `p` from `s` (character-list version);
models JavaScript `String.prototype.replace(p, '')` with a string pattern. -/
def removeFirst (s p : List Char) : List Char :=
  match s with
  | [] => []
  | c :: rest => if p.isPrefixOf s then s.drop p.length else c :: removeFirst rest p

/-- JavaScript `s.replace(p, '')`: remove the first occurrence of `p`. -/
def replaceFirst (s p : String) : String :=
  ⟨removeFirst s.data p.data⟩

/-- A glob-magic character, as recognized by the `glob-parent` package. -/
def isMagicChar (c : Char) : Bool :=
  c = '*' ∨ c = '?' ∨ c = '[' ∨ c = ']' ∨ c = '{' ∨ c = '}' ∨
  c = '(' ∨ c = ')' ∨ c = '!' ∨ c = '+' ∨ c = '@' ∨ c = '|'

/-- A segment containing glob magic. -/
def isMagicSeg (s : String) : Bool :=
  s.data.any isMagicChar

/-- Model of the `glob-parent` package: repeatedly drop the last path segment
(at least once) until no glob-magic character remains; `"."` when nothing is
left.  E.g. `globParent "./src/**/*.ts" = "./src"`. -/
def globParent (pat : String) : String :=
  let kept := ((segsOf pat).dropLast).takeWhile (fun s => ¬ isMagicSeg s)
  match kept with
  | [] => "."
  | l => joinSep "/" l

/-! ## JavaScript object model: `Record<string, string | Array<string>>` -/

/-- A value of the entry map: either a bare path string or an array of
strings, mirroring the TypeScript type `string | Array<string>`. -/
inductive EntryVal where
  | str (s : String)
  | arr (l : List String)
deriving Repr, DecidableEq

/-- A JavaScript object used as a string-keyed record, as an insertion-ordered
association list without duplicate keys. -/
abbrev EntryMap := List (String × EntryVal)

/-- Property read `m[k]`. -/
def objGet : EntryMap → String → Option EntryVal
  | [], _ => none
  | (k', v) :: m, k => if k = k' then some v else objGet m k

/-- Property write `m[k] = v`: update in place if the key exists (keeping its
position), otherwise append. -/
def objSet : EntryMap → String → EntryVal → EntryMap
  | [], k, v => [(k, v)]
  | (k', v') :: m, k, v =>
    if k = k' then (k', v) :: m else (k', v') :: objSet m k v

/-- `Object.assign(target, source)`: write every property of `source` onto
`target`, in `source`'s insertion order. -/
def objAssign (target source : EntryMap) : EntryMap :=
  source.foldl (fun t kv => objSet t kv.1 kv.2) target

/-- The keys of a record, in insertion order. -/
def keys (m : EntryMap) : List String := m.map Prod.fst

/-! ## JavaScript runtime values for the argument validation -/

/-- The JavaScript values relevant to `getEntries`' runtime type checks. -/
inductive JSVal where
  | undefinedV
  | null
  | boolV (b : Bool)
  | numV (n : Int)
  | strV (s : String)
  | objV
  | arrV
  | funcV
deriving Repr, DecidableEq

/-- JavaScript `typeof`; note `typeof null === 'object'`. -/
def jsTypeof : JSVal → String
  | .undefinedV => "undefined"
  | .null => "object"
  | .boolV _ => "boolean"
  | .numV _ => "number"
  | .strV _ => "string"
  | .objV => "object"
  | .arrV => "object"
  | .funcV => "function"

/-- JavaScript `Array.isArray`. -/
def isArray : JSVal → Bool
  | .arrV => true
  | _ => false

/-- JavaScript truthiness of the modelled values. -/
def truthy : JSVal → Bool
  | .undefinedV => false
  | .null => false
  | .boolV b => b
  | .numV n => n ≠ 0
  | .strV s => s ≠ ""
  | .objV => true
  | .arrV => true
  | .funcV => true

/-- The fields of a `PluginOptions` object literal.  A field that is `none`
is absent from the object; `globOptions` is kept as a raw JavaScript value
because the code type-checks it at runtime. -/
structure POpts where
  basename_as_entry_id : Option Bool := none
  basename_as_entry_name : Option Bool := none
  includeHMR : Option Bool := none
  developmentURL : Option String := none
  globOptions : JSVal := .undefinedV
deriving Repr, DecidableEq

/-- The `pluginOptions` argument as passed at runtime: absent, `null`, an
object literal, or some other (ill-typed) JavaScript value. -/
inductive OptionsArg where
  | undefinedV
  | null
  | obj (o : POpts)
  | prim (v : JSVal)
deriving Repr, DecidableEq

/-- `typeof pluginOptions`. -/
def jsTypeofOpts : OptionsArg → String
  | .undefinedV => "undefined"
  | .null => "object"
  | .obj _ => "object"
  | .prim v => jsTypeof v

/-- The optional chain `pluginOptions?.globOptions` (short-circuits to
`undefined` on `null`/`undefined`). -/
def getGlobOptions : OptionsArg → JSVal
  | .obj o => o.globOptions
  | _ => .undefinedV

/-- The `globs` argument as passed at runtime: a string, an array of strings,
or some other (ill-typed) JavaScript value. -/
inductive GlobsArg where
  | str (s : String)
  | list (l : List String)
  | other (v : JSVal)
deriving Repr, DecidableEq

/-- The JavaScript value seen by the `typeof`/`Array.isArray` checks. -/
def globsJS : GlobsArg → JSVal
  | .str s => .strV s
  | .list _ => .arrV
  | .other v => v

/-- `if (!Array.isArray(globs)) globs = [globs]`, pure view. -/
def globsToList : GlobsArg → List String
  | .str s => [s]
  | .list l => l
  | .other _ => []

/-- The three argument checks of `GlobWatcher.getEntries` (identical in both
variants), in source order:
`pluginOptions` must be `undefined` or typeof-object; `globs` must be a string
or an array; `pluginOptions?.globOptions`, when truthy, must be
typeof-object. -/
def validateOpts (globs : JSVal) (popts : OptionsArg) : Except String Unit :=
  if jsTypeofOpts popts ≠ "undefined" ∧ jsTypeofOpts popts ≠ "object" then
    .error "pluginOptions_ must be an object"
  else if jsTypeof globs ≠ "string" ∧ isArray globs = false then
    .error "Globs must be a string or an array of strings"
  else if truthy (getGlobOptions popts) ∧ jsTypeof (getGlobOptions popts) ≠ "object" then
    .error "globOptions must be an object"
  else
    .ok ()

/-- The option values as observed by `getFiles` after
`Object.assign({ basename_as_entry_id: false }, pluginOptions)`: absent
boolean fields read as `undefined`, hence falsy. -/
structure EffOptions where
  basename_as_entry_id : Bool := false
  basename_as_entry_name : Bool := false
  includeHMR : Bool := false
  developmentURL : Option String := none
deriving Repr, DecidableEq

/-- `Object.assign({ basename_as_entry_id: false }, pluginOptions)`; `null`
and `undefined` sources are ignored by `Object.assign`, leaving only the
default. -/
def effOptions : OptionsArg → EffOptions
  | .obj o =>
    { basename_as_entry_id := o.basename_as_entry_id.getD false
      basename_as_entry_name := o.basename_as_entry_name.getD false
      includeHMR := o.includeHMR.getD false
      developmentURL := o.developmentURL }
  | _ => {}

/-! ## `GlobWatcher.getFiles` — variant A (`src/plugins/GlobWatcher.ts`) -/

/-- The synthetic HMR helper entry of variant A (hard-coded URL). -/
def hmrHelperA : String :=
  "webpack-hot-middleware/client?path=http://localhost:5000/__webpack_hmr&timeout=20000&reload=true"

/-- The entry name derived for a matched file: relative to the base, first
occurrence of the extension removed, split on the separator and re-joined
with `"/"`; reduced to its basename when `basename_as_entry_name` is set. -/
def deriveEntryName (base file : String) (useBasename : Bool) : String :=
  let n := joinSep "/" (segsOf (replaceFirst (pathRelative base file) (extname file)))
  if useBasename then pathBasename n else n

/-- The per-file body of variant A's `getFiles` loop: bind the entry name to
the bare path; with `includeHMR`, additionally bind the file-path key to
`[helper, file]` in development and to `[file]` in production. -/
def bodyA (env : Option String) (base : String) (opts : EffOptions)
    (m : EntryMap) (file : String) : EntryMap :=
  let en := deriveEntryName base file opts.basename_as_entry_name
  let m1 := objSet m en (.str file)
  if opts.includeHMR then
    let m2 := if env = some "development" then objSet m1 file (.arr [hmrHelperA, file]) else m1
    if env = some "production" then objSet m2 file (.arr [file]) else m2
  else m1

/-- Variant A's `GlobWatcher.getFiles`: fold the loop body over the files the
glob oracle returns for the pattern. -/
def getFilesA (fs : String → List String) (env : Option String)
    (globString : String) (opts : EffOptions) : EntryMap :=
  (fs globString).foldl (bodyA env (globParent globString) opts) []

/-! ## `GlobWatcher.getFiles` — variant B (the unnamed second variant) -/

/-- The synthetic HMR helper entry of variant B, built from the configured
`developmentURL` (default `http://localhost:5000`). -/
def hmrHelperB (opts : EffOptions) : String :=
  "webpack-hot-middleware/client?path=" ++ (opts.developmentURL.getD "http://localhost:5000")
    ++ "/__webpack_hmr&timeout=2000&reload=true"

/-- The per-file body of variant B's `getFiles` loop: bind the entry name to
the bare path, then overwrite it with `[file, helper]` when `includeHMR` is
set in development, and with `[file]` otherwise. -/
def bodyB (env : Option String) (base : String) (opts : EffOptions)
    (m : EntryMap) (file : String) : EntryMap :=
  let en := deriveEntryName base file opts.basename_as_entry_name
  let m1 := objSet m en (.str file)
  if opts.includeHMR ∧ env = some "development" then
    objSet m1 en (.arr [file, hmrHelperB opts])
  else
    objSet m1 en (.arr [file])

/-- Variant B's `GlobWatcher.getFiles`. -/
def getFilesB (fs : String → List String) (env : Option String)
    (globString : String) (opts : EffOptions) : EntryMap :=
  (fs globString).foldl (bodyB env (globParent globString) opts) []

/-! ## `GlobWatcher.getEntries` -/

/-- The directory bookkeeping step shared by both variants: record the glob
parent unless it is already tracked (`indexOf === -1` push / `Set` add). -/
def recordDir (dirs : List String) (base : String) : List String :=
  if base ∈ dirs then dirs else dirs ++ [base]

/-- The directories tracked after resolving a pattern list, starting from a
given collection. -/
def dirsFrom (acc : List String) (globs : List String) : List String :=
  globs.foldl (fun d g => recordDir d (globParent g)) acc

/-- The directories tracked after one resolution (the collection was reset at
the start of the call). -/
def dirsOf (globs : List String) : List String := dirsFrom [] globs

/-- The body of the thunk returned by variant A's `getEntries` (run after the
collection reset): for each pattern record its parent directory and merge the
pattern's files with `globbedFiles = Object.assign(files, globbedFiles)`. -/
def getEntriesResolveA (fs : String → List String) (env : Option String)
    (globs : List String) (opts : EffOptions) : EntryMap × List String :=
  globs.foldl (fun acc g =>
    (objAssign (getFilesA fs env g opts) acc.1, recordDir acc.2 (globParent g)))
    ([], [])

/-- Variant B's `getEntries` after validation (its loop runs directly in the
call, with the same accumulated `Object.assign(files, globbedFiles)`). -/
def getEntriesResolveB (fs : String → List String) (env : Option String)
    (globs : List String) (opts : EffOptions) : EntryMap × List String :=
  globs.foldl (fun acc g =>
    (objAssign (getFilesB fs env g opts) acc.1, recordDir acc.2 (globParent g)))
    ([], [])

/-- Variant A's `getEntries` followed by running the returned thunk:
validate, reset the directory collection, resolve.  The result is the entry
map or the thrown `TypeError` message. -/
def getEntriesA (fs : String → List String) (env : Option String)
    (globs : GlobsArg) (popts : OptionsArg) : Except String (EntryMap × List String) :=
  match validateOpts (globsJS globs) popts with
  | .error e => .error e
  | .ok _ => .ok (getEntriesResolveA fs env (globsToList globs) (effOptions popts))

/-- Variant A's `getEntries` with the shared static state made explicit:
`prev` is the content of `GlobWatcher.directories` before the call; the
second component is its content afterwards (unchanged when the call throws,
because the checks run before the reset). -/
def getEntriesStA (fs : String → List String) (env : Option String)
    (globs : GlobsArg) (popts : OptionsArg) (prev : List String) :
    Except String EntryMap × List String :=
  match validateOpts (globsJS globs) popts with
  | .error e => (.error e, prev)
  | .ok _ =>
    let r := getEntriesResolveA fs env (globsToList globs) (effOptions popts)
    (.ok r.1, r.2)

/-- The content of `GlobWatcher.directories` right after `getEntries` returns
its thunk (before the thunk runs): the validation, then
`GlobWatcher.directories.length = 0`. -/
def getEntriesResetA (globs : GlobsArg) (popts : OptionsArg)
    (prev : List String) : List String :=
  match validateOpts (globsJS globs) popts with
  | .error _ => prev
  | .ok _ => []

/-! ## `GlobWatcher.afterCompile` -/

/-- The compilation's dependency container: a `Set` (insertion-ordered,
duplicate-free), a legacy array, or some other shape. -/
inductive DepContainer where
  | set (s : List String)
  | arr (l : List String)
  | other
deriving Repr, DecidableEq

/-- `Set.prototype.add`: no-op when the element is present. -/
def setAdd (s : List String) (x : String) : List String :=
  if x ∈ s then s else s ++ [x]

/-- Adding the normalized form of every directory to a `Set`, in order. -/
def setAddAllNorm (s : List String) (dirs : List String) : List String :=
  dirs.foldl (fun t d => setAdd t (pathNormalize d)) s

/-- Variant A's `afterCompile`: on a `Set`, add each directory normalized; on
an array, `concat` the raw directories; always call the callback once at the
end (the `Nat` counts callback invocations). -/
def afterCompileA (dirs : List String) : DepContainer → DepContainer × Nat
  | .set s => (.set (setAddAllNorm s dirs), 1)
  | .arr l => (.arr (l ++ dirs), 1)
  | .other => (.other, 1)

/-- Variant B's `afterCompile`: each directory is pushed normalized into
either container shape; the callback is called once at the end. -/
def afterCompileB (dirs : List String) : DepContainer → DepContainer × Nat
  | .set s => (.set (setAddAllNorm s dirs), 1)
  | .arr l => (.arr (l ++ dirs.map pathNormalize), 1)
  | .other => (.other, 1)

/-! ## Specification-side characterizations and concrete inputs -/

/-- The binding the accumulated `Object.assign(files, globbedFiles)` merge
actually produces for a key: the value from the EARLIEST pattern (in iteration
order) whose `getFiles` map contains it. -/
def firstHitA (fs : String → List String) (env : Option String)
    (opts : EffOptions) : List String → String → Option EntryVal
  | [], _ => none
  | g :: gs, k =>
    match objGet (getFilesA fs env g opts) k with
    | some v => some v
    | none => firstHitA fs env opts gs k

/-- A filesystem in which `a/*.ts` and `b/*.ts` each match one file whose
derived entry name is `x`. -/
def fsCollide : String → List String := fun g =>
  if g = "a/*.ts" then ["a/x.ts"] else if g = "b/*.ts" then ["b/x.ts"] else []

/-- A filesystem in which `./src/**/*.ts` matches exactly `./src/Rune.ts`. -/
def fsRune : String → List String := fun g =>
  if g = "./src/**/*.ts" then ["./src/Rune.ts"] else []

/-- A filesystem in which `src/*.ts` matches a file whose relative path
contains the extension string `.ts` before its final extension. -/
def fsTsx : String → List String := fun g =>
  if g = "src/*.ts" then ["src/a.tsx.ts"] else []

/-- A filesystem in which `a/**/*.ts` matches two files whose derived entry
names collide once `basename_as_entry_name` is set. -/
def fsNested : String → List String := fun g =>
  if g = "a/**/*.ts" then ["a/x.ts", "a/b/x.ts"] else []

/-- Generic insertion-ordered dedup fold shared by the directory tracker and
the `Set` adapter. -/
def dedupFold (key : σ → String) (acc : List String) (l : List σ) : List String :=
  l.foldl (fun d x => if key x ∈ d then d else d ++ [key x]) acc

/-- The target list variant B binds to the entry name. -/
def targetB (env : Option String) (opts : EffOptions) (file : String) : EntryVal :=
  if opts.includeHMR ∧ env = some "development" then .arr [file, hmrHelperB opts]
  else .arr [file]

/-- The entry-map component of variant A's resolution, separated from the
directory bookkeeping. -/
def resolveMapA (fs : String → List String) (env : Option String)
    (opts : EffOptions) (globs : List String) : EntryMap :=
  globs.foldl (fun m g => objAssign (getFilesA fs env g opts) m) []

/-- The entry-map component of variant B's resolution. -/
def resolveMapB (fs : String → List String) (env : Option String)
    (opts : EffOptions) (globs : List String) : EntryMap :=
  globs.foldl (fun m g => objAssign (getFilesB fs env g opts) m) []

/-! ## Lemmas: the object model -/

theorem objGet_cons (k' : String) (v : EntryVal) (m : EntryMap) (k : String) :
    objGet ((k', v) :: m) k = if k = k' then some v else objGet m k := rfl

theorem objGet_objSet_self (m : EntryMap) (k : String) (v : EntryVal) :
    objGet (objSet m k v) k = some v := by
  induction m with
  | nil => simp [objSet, objGet]
  | cons kv m ih =>
    obtain ⟨k', v'⟩ := kv
    by_cases h : k = k'
    · simp [objSet, objGet, h]
    · simp [objSet, objGet, h, ih]

theorem objGet_objSet_ne (m : EntryMap) (k k' : String) (v : EntryVal)
    (h : k' ≠ k) : objGet (objSet m k v) k' = objGet m k' := by
  induction m with
  | nil => simp [objSet, objGet, h]
  | cons kv m ih =>
    obtain ⟨a, b⟩ := kv
    by_cases hka : k = a
    · subst hka
      simp [objSet, objGet, h]
    · by_cases hk'a : k' = a
      · simp [objSet, objGet, hka, hk'a, ih]
      · simp [objSet, objGet, hka, hk'a, ih]

theorem objGet_eq_none_iff (m : EntryMap) (k : String) :
    objGet m k = none ↔ k ∉ keys m := by
  induction m with
  | nil => simp [objGet, keys]
  | cons kv m ih =>
    obtain ⟨a, b⟩ := kv
    by_cases h : k = a
    · simp [objGet, keys, h]
    · simp only [objGet, keys, h, if_neg h] at ih ⊢
      simp [ih, h]

theorem keys_objSet (m : EntryMap) (k : String) (v : EntryVal) :
    keys (objSet m k v) = if k ∈ keys m then keys m else keys m ++ [k] := by
  induction m with
  | nil => simp [objSet, keys]
  | cons kv m ih =>
    obtain ⟨a, b⟩ := kv
    by_cases h : k = a
    · simp [objSet, keys, h]
    · have hstep : objSet ((a, b) :: m) k v = (a, b) :: objSet m k v := by
        simp [objSet, h]
      rw [hstep]
      by_cases hm : k ∈ keys m
      · have hc : k ∈ keys ((a, b) :: m) := List.mem_cons.2 (Or.inr hm)
        rw [if_pos hc]
        show a :: keys (objSet m k v) = a :: keys m
        rw [ih, if_pos hm]
      · have hc : k ∉ keys ((a, b) :: m) := fun hc => by
          rcases List.mem_cons.1 hc with h1 | h2
          · exact h h1
          · exact hm h2
        rw [if_neg hc]
        show a :: keys (objSet m k v) = a :: keys m ++ [k]
        rw [ih, if_neg hm]
        simp

theorem nodupKeys_objSet (m : EntryMap) (k : String) (v : EntryVal)
    (h : (keys m).Nodup) : (keys (objSet m k v)).Nodup := by
  rw [keys_objSet]
  by_cases hm : k ∈ keys m <;> simp [hm, h, List.nodup_append]

theorem objAssign_cons (t : EntryMap) (k : String) (v : EntryVal) (s : EntryMap) :
    objAssign t ((k, v) :: s) = objAssign (objSet t k v) s := rfl

theorem objGet_objAssign (s : EntryMap) (hs : (keys s).Nodup) :
    ∀ (t : EntryMap) (k : String),
      objGet (objAssign t s) k =
        match objGet s k with
        | some v => some v
        | none => objGet t k := by
  induction s with
  | nil => intro t k; rfl
  | cons kv s ih =>
    obtain ⟨a, b⟩ := kv
    simp only [keys, List.map_cons, List.nodup_cons] at hs
    intro t k
    rw [objAssign_cons, ih hs.2]
    by_cases h : k = a
    · subst h
      have hnone : objGet s k = none := (objGet_eq_none_iff s k).2 hs.1
      simp [objGet_cons, hnone, objGet_objSet_self]
    · simp only [objGet_cons, if_neg h]
      cases hval : objGet s k with
      | some v => rfl
      | none => simp [objGet_objSet_ne _ _ _ _ h]

theorem nodupKeys_objAssign (s : EntryMap) :
    ∀ (t : EntryMap), (keys t).Nodup → (keys (objAssign t s)).Nodup := by
  induction s with
  | nil => intro t ht; exact ht
  | cons kv s ih =>
    intro t ht
    rw [objAssign_cons]
    exact ih _ (nodupKeys_objSet _ _ _ ht)

/-! ## Lemmas: folds over the matched-files list -/

theorem foldl_pair_split (F : α → σ → α) (G : β → σ → β) :
    ∀ (l : List σ) (a : α) (b : β),
      l.foldl (fun p s => (F p.1 s, G p.2 s)) (a, b) = (l.foldl F a, l.foldl G b) := by
  intro l
  induction l with
  | nil => intro a b; rfl
  | cons x l ih => intro a b; simp [List.foldl_cons, ih]

theorem objGet_foldl_of_ne (body : EntryMap → String → EntryMap) (keyf : String → String)
    (hb : ∀ m x k, k ≠ keyf x → objGet (body m x) k = objGet m k) :
    ∀ (l : List String) (m : EntryMap) (k : String), (∀ x ∈ l, keyf x ≠ k) →
      objGet (l.foldl body m) k = objGet m k := by
  intro l
  induction l with
  | nil => intro m k _; rfl
  | cons a l ih =>
    intro m k hk
    rw [List.foldl_cons, ih _ _ (fun x hx => hk x (List.mem_cons_of_mem _ hx)),
      hb _ _ _ (Ne.symm (hk a (List.mem_cons_self _ _)))]

theorem objGet_foldl_getLast (body : EntryMap → String → EntryMap)
    (keyf : String → String) (valf : String → EntryVal)
    (hb : ∀ m x k, k ≠ keyf x → objGet (body m x) k = objGet m k)
    (hset : ∀ m x, objGet (body m x) (keyf x) = some (valf x)) :
    ∀ (l : List String) (m : EntryMap) (k f : String),
      (l.filter (fun x => keyf x == k)).getLast? = some f →
      objGet (l.foldl body m) k = some (valf f) := by
  intro l
  induction l using List.reverseRecOn with
  | nil => intro m k f h; simp at h
  | append_singleton l a ih =>
    intro m k f h
    rw [List.foldl_append, List.foldl_cons, List.foldl_nil]
    rw [List.filter_append] at h
    by_cases hak : keyf a = k
    · have : (List.filter (fun x => keyf x == k) [a]) = [a] := by simp [hak]
      rw [this, List.getLast?_concat] at h
      obtain rfl : a = f := by simpa using h
      rw [← hak]
      exact hset _ _
    · have : (List.filter (fun x => keyf x == k) [a]) = [] := by simp [hak]
      rw [this, List.append_nil] at h
      rw [hb _ _ _ (fun hh => hak hh.symm)]
      exact ih _ _ _ h

theorem filter_getLast_of_nodupKeys (keyf : String → String) :
    ∀ (l : List String), (l.map keyf).Nodup → ∀ f ∈ l,
      (l.filter (fun x => keyf x == keyf f)).getLast? = some f := by
  intro l
  induction l with
  | nil => intro _ f hf; simp at hf
  | cons a l ih =>
    intro hnd f hf
    simp only [List.map_cons, List.nodup_cons] at hnd
    rcases List.mem_cons.1 hf with rfl | hf'
    · have hnil : List.filter (fun x => keyf x == keyf f) l = [] := by
        rw [List.filter_eq_nil_iff]
        intro x hx hbe
        have heq : keyf x = keyf f := by simpa using hbe
        exact hnd.1 (List.mem_map.2 ⟨x, hx, heq⟩)
      simp [List.filter_cons, hnil]
    · have hne : ¬ (keyf a == keyf f) = true := by
        intro hbe
        have heq : keyf a = keyf f := by simpa using hbe
        exact hnd.1 (List.mem_map.2 ⟨f, hf', heq.symm⟩)
      simp only [List.filter_cons, hne, if_neg, Bool.false_eq_true, not_false_eq_true,
        if_neg]
      exact ih hnd.2 f hf'

theorem nodupKeys_foldl (body : EntryMap → String → EntryMap)
    (hb : ∀ m x, (keys m).Nodup → (keys (body m x)).Nodup) :
    ∀ (l : List String) (m : EntryMap), (keys m).Nodup → (keys (l.foldl body m)).Nodup := by
  intro l
  induction l with
  | nil => intro m hm; exact hm
  | cons a l ih => intro m hm; exact ih _ (hb _ _ hm)

/-! ## Lemmas: the `getFiles` loop bodies -/

theorem bodyB_touches_only (env : Option String) (base : String) (opts : EffOptions)
    (m : EntryMap) (file : String) (k : String)
    (h : k ≠ deriveEntryName base file opts.basename_as_entry_name) :
    objGet (bodyB env base opts m file) k = objGet m k := by
  unfold bodyB
  by_cases hc : opts.includeHMR ∧ env = some "development"
  · rw [if_pos hc, objGet_objSet_ne _ _ _ _ h, objGet_objSet_ne _ _ _ _ h]
  · rw [if_neg hc, objGet_objSet_ne _ _ _ _ h, objGet_objSet_ne _ _ _ _ h]

theorem bodyB_sets (env : Option String) (base : String) (opts : EffOptions)
    (m : EntryMap) (file : String) :
    objGet (bodyB env base opts m file) (deriveEntryName base file opts.basename_as_entry_name)
      = some (targetB env opts file) := by
  unfold bodyB targetB
  by_cases hc : opts.includeHMR ∧ env = some "development"
  · rw [if_pos hc, if_pos hc, objGet_objSet_self]
  · rw [if_neg hc, if_neg hc, objGet_objSet_self]

theorem nodupKeys_bodyB (env : Option String) (base : String) (opts : EffOptions)
    (m : EntryMap) (file : String) (h : (keys m).Nodup) :
    (keys (bodyB env base opts m file)).Nodup := by
  unfold bodyB
  by_cases hc : opts.includeHMR ∧ env = some "development"
  · rw [if_pos hc]; exact nodupKeys_objSet _ _ _ (nodupKeys_objSet _ _ _ h)
  · rw [if_neg hc]; exact nodupKeys_objSet _ _ _ (nodupKeys_objSet _ _ _ h)

theorem nodupKeys_bodyA (env : Option String) (base : String) (opts : EffOptions)
    (m : EntryMap) (file : String) (h : (keys m).Nodup) :
    (keys (bodyA env base opts m file)).Nodup := by
  by_cases h1 : opts.includeHMR
  · by_cases h2 : env = some "development"
    · have h3 : ¬ env = some "production" := by simp [h2]
      simp only [bodyA, h1, h2, h3, if_true, if_false, ite_true, ite_false]
      exact nodupKeys_objSet _ _ _ (nodupKeys_objSet _ _ _ h)
    · by_cases h3 : env = some "production"
      · simp only [bodyA, h1, h2, h3, if_true, if_false, ite_true, ite_false]
        exact nodupKeys_objSet _ _ _ (nodupKeys_objSet _ _ _ h)
      · simp only [bodyA, h1, h2, h3, if_true, if_false, ite_true, ite_false]
        exact nodupKeys_objSet _ _ _ h
  · simp only [bodyA, h1, Bool.false_eq_true, if_false, ite_false]
    exact nodupKeys_objSet _ _ _ h

theorem bodyA_noHMR (env : Option String) (base : String) (opts : EffOptions)
    (hH : opts.includeHMR = false) (m : EntryMap) (file : String) :
    bodyA env base opts m file
      = objSet m (deriveEntryName base file opts.basename_as_entry_name) (.str file) := by
  simp [bodyA, hH]

theorem nodupKeys_getFilesA (fs : String → List String) (env : Option String)
    (g : String) (opts : EffOptions) : (keys (getFilesA fs env g opts)).Nodup :=
  nodupKeys_foldl _ (nodupKeys_bodyA env (globParent g) opts) (fs g) [] (by simp [keys])

theorem nodupKeys_getFilesB (fs : String → List String) (env : Option String)
    (g : String) (opts : EffOptions) : (keys (getFilesB fs env g opts)).Nodup :=
  nodupKeys_foldl _ (nodupKeys_bodyB env (globParent g) opts) (fs g) [] (by simp [keys])

/-! ## Lemmas: the dedup folds (directory tracker and `Set` adapter) -/

theorem dirsFrom_eq_dedupFold (acc : List String) (globs : List String) :
    dirsFrom acc globs = dedupFold globParent acc globs := rfl

theorem setAddAllNorm_eq_dedupFold (s dirs : List String) :
    setAddAllNorm s dirs = dedupFold pathNormalize s dirs := rfl

theorem mem_dedupFold (key : σ → String) :
    ∀ (l : List σ) (acc : List String) (x : String),
      x ∈ dedupFold key acc l ↔ x ∈ acc ∨ ∃ s ∈ l, key s = x := by
  intro l
  induction l with
  | nil => intro acc x; simp [dedupFold]
  | cons a l ih =>
    intro acc x
    have hstep : dedupFold key acc (a :: l)
        = dedupFold key (if key a ∈ acc then acc else acc ++ [key a]) l := by
      simp [dedupFold, List.foldl_cons]
    rw [hstep, ih]
    by_cases hm : key a ∈ acc
    · rw [if_pos hm]
      constructor
      · rintro (hx | hx)
        · exact Or.inl hx
        · exact Or.inr (by simpa [List.exists_mem_cons_iff] using Or.inr hx)
      · rintro (hx | hx)
        · exact Or.inl hx
        · rcases (List.exists_mem_cons_iff _ _ _).1 hx with h1 | h2
          · exact Or.inl (h1 ▸ hm)
          · exact Or.inr h2
    · rw [if_neg hm]
      constructor
      · rintro (hx | hx)
        · rcases List.mem_append.1 hx with h1 | h2
          · exact Or.inl h1
          · refine Or.inr ?_
            rw [List.exists_mem_cons_iff]
            have hx2 : x = key a := by simpa using h2
            exact Or.inl hx2.symm
        · refine Or.inr ?_
          rw [List.exists_mem_cons_iff]
          exact Or.inr hx
      · rintro (hx | hx)
        · exact Or.inl (List.mem_append.2 (Or.inl hx))
        · rcases (List.exists_mem_cons_iff _ _ _).1 hx with h1 | h2
          · exact Or.inl (List.mem_append.2 (Or.inr (by simp [h1])))
          · exact Or.inr h2

theorem nodup_dedupFold (key : σ → String) :
    ∀ (l : List σ) (acc : List String), acc.Nodup → (dedupFold key acc l).Nodup := by
  intro l
  induction l with
  | nil => intro acc h; exact h
  | cons a l ih =>
    intro acc h
    have hstep : dedupFold key acc (a :: l)
        = dedupFold key (if key a ∈ acc then acc else acc ++ [key a]) l := by
      simp [dedupFold, List.foldl_cons]
    rw [hstep]
    by_cases hm : key a ∈ acc
    · rw [if_pos hm]; exact ih _ h
    · rw [if_neg hm]
      refine ih _ ?_
      simp [List.nodup_append, h, hm]

/-! ## Lemmas: `getEntries` resolution -/

theorem getEntriesResolveA_eq (fs : String → List String) (env : Option String)
    (globs : List String) (opts : EffOptions) :
    getEntriesResolveA fs env globs opts = (resolveMapA fs env opts globs, dirsOf globs) := by
  unfold getEntriesResolveA resolveMapA dirsOf dirsFrom
  exact foldl_pair_split (fun m g => objAssign (getFilesA fs env g opts) m)
    (fun d g => recordDir d (globParent g)) globs [] []

theorem getEntriesResolveB_eq (fs : String → List String) (env : Option String)
    (globs : List String) (opts : EffOptions) :
    getEntriesResolveB fs env globs opts = (resolveMapB fs env opts globs, dirsOf globs) := by
  unfold getEntriesResolveB resolveMapB dirsOf dirsFrom
  exact foldl_pair_split (fun m g => objAssign (getFilesB fs env g opts) m)
    (fun d g => recordDir d (globParent g)) globs [] []

theorem objGet_resolveMapA (fs : String → List String) (env : Option String)
    (opts : EffOptions) :
    ∀ (globs : List String) (acc : EntryMap) (k : String), (keys acc).Nodup →
      objGet (globs.foldl (fun m g => objAssign (getFilesA fs env g opts) m) acc) k =
        match objGet acc k with
        | some v => some v
        | none => firstHitA fs env opts globs k := by
  intro globs
  induction globs with
  | nil =>
    intro acc k _
    simp only [List.foldl_nil, firstHitA]
    cases objGet acc k <;> rfl
  | cons g gs ih =>
    intro acc k hacc
    rw [List.foldl_cons]
    rw [ih _ _ (nodupKeys_objAssign _ _ (nodupKeys_getFilesA fs env g opts))]
    rw [objGet_objAssign _ hacc]
    cases hg : objGet acc k with
    | some v => simp [firstHitA]
    | none =>
      cases hf : objGet (getFilesA fs env g opts) k with
      | some v => simp [firstHitA, hf]
      | none => simp [firstHitA, hf]

theorem resolveMapA_empty (fs : String → List String) (env : Option String)
    (opts : EffOptions) :
    ∀ globs : List String, (∀ g ∈ globs, fs g = []) → resolveMapA fs env opts globs = [] := by
  intro globs
  induction globs with
  | nil => intro _; rfl
  | cons g gs ih =>
    intro h
    unfold resolveMapA at ih ⊢
    rw [List.foldl_cons]
    have hg : getFilesA fs env g opts = [] := by
      unfold getFilesA
      rw [h g (List.mem_cons_self _ _)]
      rfl
    have hstep : objAssign (getFilesA fs env g opts) [] = [] := by rw [hg]; rfl
    rw [hstep]
    exact ih (fun x hx => h x (List.mem_cons_of_mem _ hx))

/-! ## The claims -/

/-- Claim C1: (corrected).  The claim's last-pattern-wins reading fails across
patterns (see `C1_counterexample`); this theorem proves the amended claim:
(i) within one pattern, when several matches derive the same entry name the
LAST match in iteration order provides the binding (shown here for the
`includeHMR`-off configuration, whose loop body writes exactly the entry-name
key); (ii) across patterns, the EARLIEST pattern in iteration order whose
`getFiles` map contains the key provides the binding (`firstHitA`), because
the accumulation step is `Object.assign(files, globbedFiles)`: the
accumulated map is assigned over the new pattern's map. -/
theorem C1_merge_semantics :
    (∀ (fs : String → List String) (env : Option String) (opts : EffOptions)
       (g k f : String), opts.includeHMR = false →
       ((fs g).filter (fun x =>
           deriveEntryName (globParent g) x opts.basename_as_entry_name == k)).getLast?
         = some f →
       objGet (getFilesA fs env g opts) k = some (.str f))
    ∧ (∀ (fs : String → List String) (env : Option String) (opts : EffOptions)
        (globs : List String) (k : String),
        objGet (getEntriesResolveA fs env globs opts).1 k
          = firstHitA fs env opts globs k) := by
  constructor
  · intro fs env opts g k f hH hlast
    have hbody : bodyA env (globParent g) opts = fun m x =>
        objSet m (deriveEntryName (globParent g) x opts.basename_as_entry_name) (.str x) :=
      funext fun m => funext fun x => bodyA_noHMR env (globParent g) opts hH m x
    unfold getFilesA
    rw [hbody]
    exact objGet_foldl_getLast _ _ (fun x => .str x)
      (fun m x k' hk => objGet_objSet_ne _ _ _ _ hk)
      (fun m x => objGet_objSet_self _ _ _) (fs g) [] k f hlast
  · intro fs env opts globs k
    rw [getEntriesResolveA_eq]
    have h := objGet_resolveMapA fs env opts globs [] k (by simp [keys])
    simpa [resolveMapA] using h

/-- Witness for `C1_merge_semantics`: with two matches of one pattern both
deriving entry name `x` (via `basename_as_entry_name`), the later match
`a/b/x.ts` provides the binding. -/
theorem C1_merge_semantics_witness :
    objGet (getFilesA fsNested none "a/**/*.ts" { basename_as_entry_name := true }) "x"
      = some (.str "a/b/x.ts") :=
  C1_merge_semantics.1 fsNested none { basename_as_entry_name := true }
    "a/**/*.ts" "x" "a/b/x.ts" rfl (by decide)

/-- Claim C1: counterexample: patterns `a/*.ts` then `b/*.ts` both derive entry
name `x`; the returned map binds `x` to the EARLIER pattern's file `a/x.ts`,
not to the later pattern's `b/x.ts` required by the claim. -/
theorem C1_counterexample :
    objGet (getEntriesResolveA fsCollide none ["a/*.ts", "b/*.ts"] {}).1 "x"
        = some (.str "a/x.ts")
    ∧ objGet (getEntriesResolveA fsCollide none ["a/*.ts", "b/*.ts"] {}).1 "x"
        ≠ some (.str "b/x.ts") :=
  ⟨by decide, by decide⟩

/-- Claim C2: (corrected).  As stated the claim fails on
`src/plugins/GlobWatcher.ts` (see `C2_counterexample`).  Amended claim,
proved here for the variant-B `getFiles` (the one with a configurable
`developmentURL`): when the derived entry names of the matched files are
pairwise distinct, every matched file's entry name is bound to
`targetB env opts file`, i.e. to `[file, helper]` — the helper URL built
around the configured `developmentURL` — when `includeHMR` is set and
`NODE_ENV === 'development'`, and to the single-element `[file]` otherwise. -/
theorem C2_hmr_targets (fs : String → List String) (env : Option String)
    (g : String) (opts : EffOptions)
    (hnd : ((fs g).map (fun f =>
        deriveEntryName (globParent g) f opts.basename_as_entry_name)).Nodup)
    (file : String) (hf : file ∈ fs g) :
    objGet (getFilesB fs env g opts)
        (deriveEntryName (globParent g) file opts.basename_as_entry_name)
      = some (targetB env opts file) := by
  unfold getFilesB
  exact objGet_foldl_getLast (bodyB env (globParent g) opts)
    (fun f => deriveEntryName (globParent g) f opts.basename_as_entry_name)
    (targetB env opts)
    (fun m x k hk => bodyB_touches_only env (globParent g) opts m x k hk)
    (fun m x => bodyB_sets env (globParent g) opts m x)
    (fs g) [] _ file
    (filter_getLast_of_nodupKeys _ (fs g) hnd file hf)

/-- Witness for `C2_hmr_targets`: `./src/Rune.ts` under `./src/**/*.ts` with
`includeHMR` and a development signal, with `developmentURL` configured to
`http://localhost:3000`. -/
theorem C2_hmr_targets_witness :
    objGet (getFilesB fsRune (some "development") "./src/**/*.ts"
        { includeHMR := true, developmentURL := some "http://localhost:3000" })
        (deriveEntryName (globParent "./src/**/*.ts") "./src/Rune.ts" false)
      = some (.arr ["./src/Rune.ts",
          "webpack-hot-middleware/client?path=http://localhost:3000/__webpack_hmr&timeout=2000&reload=true"]) := by
  have h := C2_hmr_targets fsRune (some "development") "./src/**/*.ts"
    { includeHMR := true, developmentURL := some "http://localhost:3000" } (by decide)
    "./src/Rune.ts" (by decide)
  exact h.trans (by decide)

/-- Claim C2: counterexample on `src/plugins/GlobWatcher.ts`: with `includeHMR`
set and the development signal active, the entry name `Rune` stays bound to
the BARE path string (an `EntryVal.str`, not a target list), while the
two-element list — with a hard-coded URL, not the configured
`developmentURL` — is bound under the file-path key `./src/Rune.ts`. -/
theorem C2_counterexample :
    objGet (getFilesA fsRune (some "development") "./src/**/*.ts"
        { includeHMR := true }) "Rune" = some (.str "./src/Rune.ts")
    ∧ objGet (getFilesA fsRune (some "development") "./src/**/*.ts"
        { includeHMR := true }) "./src/Rune.ts"
      = some (.arr [hmrHelperA, "./src/Rune.ts"]) :=
  ⟨by decide, by decide⟩

/-- Claim C3: (corrected).  As stated the claim fails because the tracked
directories are the RAW results of glob-parent, not path-normalized (see
`C3_counterexample`).  Amended claim, proved here: after a resolution the
collection contains exactly the distinct glob-parent base strings of that
call's patterns (un-normalized), with no duplicates, no matter how many
files matched; and starting from any previously accumulated state the
post-call collection is the same function of this call's patterns alone. -/
theorem C3_tracked_directories :
    (∀ (fs : String → List String) (env : Option String) (globs : List String)
       (opts : EffOptions),
       (getEntriesResolveA fs env globs opts).2 = dirsOf globs)
    ∧ (∀ globs : List String, (dirsOf globs).Nodup)
    ∧ (∀ (globs : List String) (d : String),
        d ∈ dirsOf globs ↔ ∃ g ∈ globs, globParent g = d)
    ∧ (∀ (fs : String → List String) (env : Option String) (globs : GlobsArg)
        (popts : OptionsArg) (prev : List String),
        validateOpts (globsJS globs) popts = .ok () →
        (getEntriesStA fs env globs popts prev).2 = dirsOf (globsToList globs)) := by
  refine ⟨?_, ?_, ?_, ?_⟩
  · intro fs env globs opts
    rw [getEntriesResolveA_eq]
  · intro globs
    rw [dirsOf, dirsFrom_eq_dedupFold]
    exact nodup_dedupFold _ globs [] List.nodup_nil
  · intro globs d
    rw [dirsOf, dirsFrom_eq_dedupFold]
    simpa using mem_dedupFold globParent globs [] d
  · intro fs env globs popts prev hv
    unfold getEntriesStA
    rw [hv]
    show (getEntriesResolveA fs env (globsToList globs) (effOptions popts)).2
      = dirsOf (globsToList globs)
    rw [getEntriesResolveA_eq]

/-- Witness for `C3_tracked_directories`: a call on two patterns starting
from a stale collection. -/
theorem C3_tracked_directories_witness :
    (getEntriesStA (fun _ => []) none
        (.list ["./src/**/*.ts", "./test/**/*.ts"]) .undefinedV ["stale"]).2
      = dirsOf ["./src/**/*.ts", "./test/**/*.ts"] :=
  C3_tracked_directories.2.2.2 (fun _ => []) none
    (.list ["./src/**/*.ts", "./test/**/*.ts"]) .undefinedV ["stale"] (by rfl)

/-- Claim C3: counterexample: after resolving
`["./src/**/*.ts", "./test/**/*.ts"]`, the collection is
`["./src", "./test"]`; the normalized string `"src"` is NOT a member even
though `pathNormalize "./src" = "src"`, so the collection does not equal the
normalized set `{src, test}` the claim requires. -/
theorem C3_counterexample :
    (getEntriesResolveA (fun _ => []) none ["./src/**/*.ts", "./test/**/*.ts"] {}).2
        = ["./src", "./test"]
    ∧ "src" ∉ (getEntriesResolveA (fun _ => []) none
        ["./src/**/*.ts", "./test/**/*.ts"] {}).2
    ∧ pathNormalize "./src" = "src" :=
  ⟨by decide, by decide, by decide⟩

/-- Claim C4: (corrected).  As stated the claim fails for variant A's legacy
array branch, which `concat`s the RAW directories without normalization (see
`C4_counterexample`).  Amended claim, proved here: on a `Set` container both
variants insert each directory path-normalized with set semantics (membership
is extended exactly by the normalized directories; no duplicates are
introduced); on an array container variant A appends the directories
un-normalized and variant B appends them normalized, both with append
semantics (duplicates allowed); the callback count is 1 in all shapes. -/
theorem C4_after_compile_insertion :
    (∀ (dirs s : List String) (x : String),
        x ∈ setAddAllNorm s dirs ↔ x ∈ s ∨ ∃ d ∈ dirs, pathNormalize d = x)
    ∧ (∀ (dirs s : List String), s.Nodup → (setAddAllNorm s dirs).Nodup)
    ∧ (∀ (dirs s : List String),
        afterCompileA dirs (.set s) = (.set (setAddAllNorm s dirs), 1)
        ∧ afterCompileB dirs (.set s) = (.set (setAddAllNorm s dirs), 1))
    ∧ (∀ (dirs l : List String),
        afterCompileA dirs (.arr l) = (.arr (l ++ dirs), 1)
        ∧ afterCompileB dirs (.arr l) = (.arr (l ++ dirs.map pathNormalize), 1)) := by
  refine ⟨?_, ?_, ?_, ?_⟩
  · intro dirs s x
    rw [setAddAllNorm_eq_dedupFold]
    exact mem_dedupFold pathNormalize dirs s x
  · intro dirs s h
    rw [setAddAllNorm_eq_dedupFold]
    exact nodup_dedupFold pathNormalize dirs s h
  · intro dirs s
    exact ⟨rfl, rfl⟩
  · intro dirs l
    exact ⟨rfl, rfl⟩

/-- Witness for `C4_after_compile_insertion`: normalized set insertion keeps
the container duplicate-free. -/
theorem C4_after_compile_insertion_witness :
    (setAddAllNorm ["a"] ["./src"]).Nodup :=
  C4_after_compile_insertion.2.1 ["./src"] ["a"] (by decide)

/-- Claim C4: counterexample: one tracked directory `./src` and a legacy array
container; variant A appends the raw `./src`, not the normalized `src` the
claim requires. -/
theorem C4_counterexample :
    afterCompileA ["./src"] (.arr []) = (.arr ["./src"], 1)
    ∧ pathNormalize "./src" = "src"
    ∧ ("./src" : String) ≠ "src" :=
  ⟨by decide, by decide, by decide⟩

/-- Claim C5: (corrected).  As stated the claim fails for FALSY non-object
`globOptions` values (`0`, `''`, `false`), which pass the truthiness-guarded
check (see `C5_counterexample`).  Amended claim, proved here: a
`pluginOptions` that is neither `undefined` nor typeof-object fails with the
`pluginOptions_` message; a `globs` that is neither a string nor an array
fails (once `pluginOptions` is acceptable) with the `Globs` message; a TRUTHY
non-object `globOptions` fails (once the other two are acceptable) with the
`globOptions` message — all raised by the synchronous validation, which runs
before any filesystem access. -/
theorem C5_validation :
    (∀ (g : JSVal) (p : OptionsArg),
        jsTypeofOpts p ≠ "undefined" → jsTypeofOpts p ≠ "object" →
        validateOpts g p = .error "pluginOptions_ must be an object")
    ∧ (∀ (g : JSVal) (p : OptionsArg),
        jsTypeof g ≠ "string" → isArray g = false →
        (jsTypeofOpts p = "undefined" ∨ jsTypeofOpts p = "object") →
        validateOpts g p = .error "Globs must be a string or an array of strings")
    ∧ (∀ (g : JSVal) (o : POpts),
        (jsTypeof g = "string" ∨ isArray g = true) →
        truthy o.globOptions = true → jsTypeof o.globOptions ≠ "object" →
        validateOpts g (.obj o) = .error "globOptions must be an object") := by
  refine ⟨?_, ?_, ?_⟩
  · intro g p h1 h2
    unfold validateOpts
    rw [if_pos ⟨h1, h2⟩]
  · intro g p hg hga hp
    have h1 : ¬ (jsTypeofOpts p ≠ "undefined" ∧ jsTypeofOpts p ≠ "object") := by
      rcases hp with h | h
      · exact fun hc => hc.1 h
      · exact fun hc => hc.2 h
    unfold validateOpts
    rw [if_neg h1, if_pos ⟨hg, hga⟩]
  · intro g o hg ht hto
    have h1 : ¬ (jsTypeofOpts (.obj o) ≠ "undefined" ∧ jsTypeofOpts (.obj o) ≠ "object") :=
      fun hc => hc.2 rfl
    have h2 : ¬ (jsTypeof g ≠ "string" ∧ isArray g = false) := by
      rcases hg with h | h
      · exact fun hc => hc.1 h
      · exact fun hc => by
          rw [h] at hc
          exact absurd hc.2 (by decide)
    have h3 : truthy (getGlobOptions (.obj o)) = true
        ∧ jsTypeof (getGlobOptions (.obj o)) ≠ "object" := ⟨ht, hto⟩
    unfold validateOpts
    rw [if_neg h1, if_neg h2, if_pos h3]

/-- Witness for `C5_validation`: the three failure messages at concrete
ill-typed arguments. -/
theorem C5_validation_witness :
    validateOpts .arrV (.prim (.strV "invalid"))
        = .error "pluginOptions_ must be an object"
    ∧ validateOpts .null .undefinedV
        = .error "Globs must be a string or an array of strings"
    ∧ validateOpts .arrV (.obj { globOptions := .numV 123 })
        = .error "globOptions must be an object" :=
  ⟨C5_validation.1 .arrV (.prim (.strV "invalid")) (by decide) (by decide),
   C5_validation.2.1 .null .undefinedV (by decide) (by decide) (Or.inl rfl),
   C5_validation.2.2 .arrV { globOptions := .numV 123 } (Or.inr rfl)
     (by decide) (by decide)⟩

/-- Claim C5: counterexample: `globOptions: 0` is a non-object, yet validation
succeeds, because the check is guarded by JavaScript truthiness and `0` is
falsy. -/
theorem C5_counterexample :
    validateOpts .arrV (.obj { globOptions := .numV 0 }) = .ok ()
    ∧ jsTypeof (.numV 0) ≠ "object" :=
  ⟨by rfl, by decide⟩

/-- Claim C6: (code_bug).  The claim — entry name = relative path with the file
extension stripped — matches the evident intent (`path.extname` is computed
precisely to identify the extension), but the code calls
`.replace(path.extname(file), '')`, which removes the FIRST occurrence of the
extension substring anywhere in the relative path.  At the failing input
(pattern `src/*.ts`, matched file `src/a.tsx.ts`) the code produces the entry
name `ax.ts` instead of the claimed `a.tsx`. -/
theorem C6_extension_strip_bug :
    objGet (getFilesA fsTsx none "src/*.ts" {}) "ax.ts" = some (.str "src/a.tsx.ts")
    ∧ objGet (getFilesA fsTsx none "src/*.ts" {}) "a.tsx" = none :=
  ⟨by decide, by decide⟩

/-- Claim C7: (confirmed).  For any well-formed call (validation succeeds), an
empty pattern list yields the empty map with no tracked directories, and
patterns matching no files yield the empty map (with the bases still
tracked); no error is raised in either case. -/
theorem C7_empty_inputs :
    (∀ (fs : String → List String) (env : Option String) (popts : OptionsArg),
        validateOpts .arrV popts = .ok () →
        getEntriesA fs env (.list []) popts = .ok ([], []))
    ∧ (∀ (fs : String → List String) (env : Option String) (popts : OptionsArg)
        (globs : List String),
        validateOpts .arrV popts = .ok () → (∀ g ∈ globs, fs g = []) →
        getEntriesA fs env (.list globs) popts = .ok ([], dirsOf globs)) := by
  constructor
  · intro fs env popts hv
    have hv' : validateOpts (globsJS (GlobsArg.list [])) popts = .ok () := hv
    unfold getEntriesA
    rw [hv']
    rfl
  · intro fs env popts globs hv hempty
    have hv' : validateOpts (globsJS (GlobsArg.list globs)) popts = .ok () := hv
    unfold getEntriesA
    rw [hv']
    show Except.ok (getEntriesResolveA fs env globs (effOptions popts))
      = .ok ([], dirsOf globs)
    rw [getEntriesResolveA_eq, resolveMapA_empty fs env (effOptions popts) globs hempty]

/-- Witness for `C7_empty_inputs`: the empty pattern list and a
nothing-matching pattern. -/
theorem C7_empty_inputs_witness :
    getEntriesA (fun _ => []) none (.list []) .undefinedV = .ok ([], [])
    ∧ getEntriesA (fun _ => []) none (.list ["./src/**/*.ts"]) .undefinedV
        = .ok ([], ["./src"]) := by
  constructor
  · exact C7_empty_inputs.1 (fun _ => []) none .undefinedV (by rfl)
  · have h := C7_empty_inputs.2 (fun _ => []) none .undefinedV ["./src/**/*.ts"]
      (by rfl) (fun g _ => rfl)
    exact h.trans (by rfl)

/-- Claim C8: (confirmed).  `afterCompile` — in both variants — yields exactly
one callback invocation whatever the container shape, and with zero tracked
directories it leaves the dependency container unchanged. -/
theorem C8_callback_and_frame :
    ∀ (dirs : List String) (c : DepContainer),
      (afterCompileA dirs c).2 = 1 ∧ (afterCompileB dirs c).2 = 1
      ∧ afterCompileA [] c = (c, 1) ∧ afterCompileB [] c = (c, 1) := by
  intro dirs c
  refine ⟨?_, ?_, ?_, ?_⟩ <;> cases c <;> simp [afterCompileA, afterCompileB, setAddAllNorm]

/-- Claim C9: (confirmed).  `pluginOptions = null` passes the validation (since
`typeof null === 'object'`) and the whole call behaves exactly as if no
options had been supplied: same validation outcome, same defaulted effective
options, same result, never a thrown error for well-formed `globs`. -/
theorem C9_null_options :
    (∀ (fs : String → List String) (env : Option String) (globs : GlobsArg),
        getEntriesA fs env globs .null = getEntriesA fs env globs .undefinedV)
    ∧ effOptions .null = effOptions .undefinedV
    ∧ (∀ g : JSVal, validateOpts g .null = validateOpts g .undefinedV)
    ∧ (∀ (fs : String → List String) (env : Option String) (l : List String),
        ∃ r, getEntriesA fs env (.list l) .null = .ok r)
    ∧ (∀ (fs : String → List String) (env : Option String) (s : String),
        ∃ r, getEntriesA fs env (.str s) .null = .ok r) := by
  refine ⟨?_, rfl, ?_, ?_, ?_⟩
  · intro fs env globs
    have heq : validateOpts (globsJS globs) .null = validateOpts (globsJS globs) .undefinedV := by
      cases globs <;> rfl
    have heff : effOptions OptionsArg.null = effOptions OptionsArg.undefinedV := rfl
    unfold getEntriesA
    rw [heq, heff]
  · intro g
    cases g <;> rfl
  · intro fs env l
    exact ⟨_, rfl⟩
  · intro fs env s
    exact ⟨_, rfl⟩

/-- Claim C10: (confirmed).  The directory collection is reset by `getEntries`
itself: right after a (valid) call begins the collection is empty whatever it
previously held, and the post-resolution collection is a function of the
call's own patterns alone — identical whether the previous state was `prev`
or empty, so directories from an earlier resolution are discarded even if no
`afterCompile` consumed them.  (That all instances share one collection is
structural — a `static` field — and is reflected here by threading one single
state value.) -/
theorem C10_shared_reset :
    ∀ (globs : GlobsArg) (popts : OptionsArg) (prev : List String),
      validateOpts (globsJS globs) popts = .ok () →
      getEntriesResetA globs popts prev = []
      ∧ (∀ (fs : String → List String) (env : Option String),
          getEntriesStA fs env globs popts prev = getEntriesStA fs env globs popts []
          ∧ (getEntriesStA fs env globs popts prev).2 = dirsOf (globsToList globs)) := by
  intro globs popts prev hv
  constructor
  · unfold getEntriesResetA
    rw [hv]
  · intro fs env
    constructor
    · unfold getEntriesStA
      rw [hv]
    · unfold getEntriesStA
      rw [hv]
      show (getEntriesResolveA fs env (globsToList globs) (effOptions popts)).2
        = dirsOf (globsToList globs)
      rw [getEntriesResolveA_eq]

/-- Witness for `C10_shared_reset`: a stale collection is discarded by the
next call. -/
theorem C10_shared_reset_witness :
    getEntriesResetA (.list ["./src/**/*.ts"]) .undefinedV ["stale"] = []
    ∧ (getEntriesStA (fun _ => []) none (.list ["./src/**/*.ts"]) .undefinedV ["stale"]).2
        = dirsOf ["./src/**/*.ts"] := by
  have h := C10_shared_reset (.list ["./src/**/*.ts"]) .undefinedV ["stale"] (by rfl)
  exact ⟨h.1, (h.2 (fun _ => []) none).2⟩

end Rune
